import Mathlib

/-!
# Verification of the FDA food-enforcement connector's sync engine

Shallow embedding of `connector.py`: the cursor extractor
(`get_latest_report_date`), the retry client (`make_api_request_with_retry`),
the pagination/checkpoint loop of `update`, and the record flattener
(`flatten_dict` with `json.dumps` for list values).

Modelling conventions:
* Python strings are Lean `String`s; Python's lexicographic string
  comparison by code point is Lean's `String.lt`/`String.le`.
* Wall-clock reads (`datetime.now(timezone.utc).isoformat()`) are abstracted
  by a `now : String` parameter.
* The sync loop only inspects one field of each fetched record
  (`record.get("report_date")`, a JSON string or absent) and the record
  count of a page, so a loop-level `Record` carries just that optional
  string.  The flattener, which does look at full record structure, is
  embedded separately over a JSON value type.
* The side effects of a run are modelled as the trace of `op.checkpoint`
  calls; an exception escaping `update` (re-raised as `RuntimeError`) is an
  `errored` flag on the result.
-/

/-- A fetched record, as seen by the sync loop's cursor logic: the value of
`record.get("report_date")` (a JSON string field, or absent). -/
structure Record where
  report_date : Option String
  deriving Repr, DecidableEq

/-- Normalization of an 8-character raw date performed by
`get_latest_report_date`: `year, month, day = report_date[:4],
report_date[4:6], report_date[6:8]; f"{year}-{month}-{day}T00:00:00Z"`.
String slicing in Python never raises, so this is total. -/
def normalizeDate (s : String) : String :=
  s.take 4 ++ "-" ++ (s.drop 4).take 2 ++ "-" ++ (s.drop 6).take 2 ++ "T00:00:00Z"

/-- One step of the scan in `get_latest_report_date`: the body of the
`for record in records` loop, updating the running `latest_date`.
`if report_date:` skips an absent or empty field; only length-8 strings are
converted; the `except (ValueError, IndexError)` clause is dead for string
input because slicing and formatting never raise. -/
def latestStep (latest : Option String) (r : Record) : Option String :=
  match r.report_date with
  | none => latest
  | some rd =>
    if rd = "" then latest
    else if rd.length = 8 then
      let iso := normalizeDate rd
      match latest with
      | none => some iso
      | some l => if l < iso then some iso else latest
    else latest

/-- `get_latest_report_date(records)` from `connector.py`, with the
wall-clock fallback `datetime.now(timezone.utc).isoformat()` abstracted as
`now`. -/
def get_latest_report_date (records : List Record) (now : String) : String :=
  match records.foldl latestStep none with
  | some l => l
  | none => now

/-- The normalized dates the scan accepts: nonempty length-8 raw fields. -/
def validDates (records : List Record) : List String :=
  records.filterMap fun r =>
    match r.report_date with
    | none => none
    | some rd => if rd ≠ "" ∧ rd.length = 8 then some (normalizeDate rd) else none

/-! ## Retry client -/

/-- An HTTP response as far as the loop consumes it: `response.json()`'s
`"results"` array.  Any response returned by the retry client passed
`raise_for_status()`, hence is truthy. -/
structure Response where
  results : List Record
  deriving Repr, DecidableEq

/-- Outcome of one `requests.get` + `raise_for_status()` attempt:
either a successful response or a `RequestException`. -/
inductive AttemptOutcome where
  | ok (resp : Response)
  | err
  deriving Repr, DecidableEq

/-- Result of `make_api_request_with_retry`: the returned
`Optional[Response]` (`Except.ok`), or the re-raised final exception
(`Except.error`), together with the backoff sleeps performed
(`time.sleep(2 ** attempt)`), in order. -/
structure RetryResult where
  result : Except Unit (Option Response)
  waits : List Nat

/-- The `for attempt in range(max_retries)` loop of
`make_api_request_with_retry`, unrolled structurally on the number of
remaining iterations (`remaining = max_retries - attempt` at every call
site).  `remaining = 0` is the fall-through `return None` after the loop. -/
def retryGo (attempts : Nat → AttemptOutcome) (max_retries attempt : Nat) :
    Nat → RetryResult
  | 0 => ⟨Except.ok none, []⟩
  | remaining + 1 =>
    match attempts attempt with
    | .ok r => ⟨Except.ok (some r), []⟩
    | .err =>
      if attempt < max_retries - 1 then
        let rest := retryGo attempts max_retries (attempt + 1) remaining
        ⟨rest.result, 2 ^ attempt :: rest.waits⟩
      else ⟨Except.error (), []⟩

/-- `make_api_request_with_retry(base_url, params, max_retries=3)`, with the
network abstracted as the outcome of each zero-indexed attempt. -/
def make_api_request_with_retry (attempts : Nat → AttemptOutcome)
    (max_retries : Nat := 3) : RetryResult :=
  retryGo attempts max_retries 0 max_retries

/-! ## Sync loop -/

/-- What one call of the fetch step delivers to the loop body:
`exn` — the retry client raised (retries exhausted), caught by `update`'s
`except`; `noResp` — the retry client returned a falsy response (the
`if not response: break` branch); `page` — a response whose JSON carries
the given `results` array. -/
inductive FetchOutcome where
  | exn
  | noResp
  | page (results : List Record)

/-- One `op.checkpoint(...)` payload: the three persisted state fields. -/
structure Checkpoint where
  last_sync_date : String
  total_processed : Nat
  last_cursor : Nat
  deriving Repr, DecidableEq

/-- The input `state` dict: `state.get("last_sync_date")`,
`state.get("total_processed", 0)` (and `last_cursor`, which the loop never
reads). -/
structure SyncState where
  last_sync_date : Option String
  total_processed : Nat
  deriving Repr, DecidableEq

/-- Result of the `while` loop in `update` (before the final checkpoint):
final `skip` and `total_processed`, the last value of the local `data`
variable's `results` (absent if no fetch ever returned a response), the
per-page checkpoints written, whether an exception escaped the loop, and
whether the (dead) `if not response: break` branch ran. -/
structure LoopResult where
  skip : Nat
  total : Nat
  lastData : Option (List Record)
  checkpoints : List Checkpoint
  errored : Bool
  noneBreak : Bool

/-- The `while total_processed < max_records` loop of `update`.
`limitEff = min(limit, 1000)` is `params["limit"]`; `pageIdx` counts fetches
(so `fetches pageIdx` is what the `pageIdx`-th call of
`make_api_request_with_retry` produces); `process_food_enforcement_records`
contributes `len(results)` because `flatten_dict` is total on JSON input.
A page shorter than `limitEff` breaks out *before* the per-page checkpoint;
a full page checkpoints `{last_sync_date: get_latest_report_date(results),
total_processed, last_cursor: skip + limitEff}` and continues. -/
def runLoop (fetches : Nat → FetchOutcome) (limitEff max_records : Nat)
    (now : String) (pageIdx skip total : Nat) (lastData : Option (List Record))
    (acc : List Checkpoint) : LoopResult :=
  if total < max_records then
    match fetches pageIdx with
    | .exn => ⟨skip, total, lastData, acc, true, false⟩
    | .noResp => ⟨skip, total, lastData, acc, false, true⟩
    | .page results =>
      if results.isEmpty then ⟨skip, total, some results, acc, false, false⟩
      else
        let total' := total + results.length
        if results.length < limitEff then
          ⟨skip, total', some results, acc, false, false⟩
        else
          let skip' := skip + limitEff
          let cp : Checkpoint :=
            ⟨get_latest_report_date results now, total', skip'⟩
          runLoop fetches limitEff max_records now (pageIdx + 1) skip' total'
            (some results) (acc ++ [cp])
  else ⟨skip, total, lastData, acc, false, false⟩
termination_by max_records - total
decreasing_by
  have hlen : 0 < results.length := by
    cases results with
    | nil => simp at *
    | cons a l => simp
  omega

/-- The cursor written by the final checkpoint:
`data["results"]` of the last response if `'data' in locals()` and that
list is truthy, else the wall-clock fallback. -/
def finalCursor (lastData : Option (List Record)) (now : String) : String :=
  match lastData with
  | none => now
  | some results =>
    if results.isEmpty then now else get_latest_report_date results now

/-- Observable outcome of `update`: the checkpoint trace, and whether a
`RuntimeError` was raised (in which case the final checkpoint was not
reached and the trace holds only the checkpoints written before the
failure). -/
structure UpdateResult where
  checkpoints : List Checkpoint
  errored : Bool
  deriving Repr, DecidableEq

/-- `update(configuration, state)` reduced to its checkpoint-trace
semantics: start at `skip = 0`, `total_processed = state's count`; run the
pagination loop; on normal exit append the final checkpoint
`{last_sync_date: finalCursor, total_processed, last_cursor: skip}`. -/
def update (fetches : Nat → FetchOutcome) (limit max_records : Nat)
    (state : SyncState) (now : String) : UpdateResult :=
  let limitEff := min limit 1000
  let r := runLoop fetches limitEff max_records now 0 0 state.total_processed
    none []
  if r.errored then ⟨r.checkpoints, true⟩
  else ⟨r.checkpoints ++ [⟨finalCursor r.lastData now, r.total, r.skip⟩], false⟩

/-! ## Flattener -/

/-- A JSON value, the shape of data delivered by `response.json()` and
consumed by `flatten_dict` / `json.dumps`.  JSON numbers appearing in this
dataset are integers; floating point is not modelled. -/
inductive JsonVal where
  | null
  | bool (b : Bool)
  | num (n : Int)
  | str (s : String)
  | arr (elems : List JsonVal)
  | obj (fields : List (String × JsonVal))
  deriving Repr

/-- Lower-case hexadecimal digit, as produced by Python's `'%04x'`. -/
def hexDigit (n : Nat) : Char :=
  if n < 10 then Char.ofNat (48 + n) else Char.ofNat (87 + n)

/-- Four lower-case hex digits, Python's `'\u%04x'` payload. -/
def toHex4 (n : Nat) : String :=
  String.mk [hexDigit (n / 4096 % 16), hexDigit (n / 256 % 16),
    hexDigit (n / 16 % 16), hexDigit (n % 16)]

/-- `json.dumps` escaping of one character with the default
`ensure_ascii=True`: backslash, quote, the short escapes, `\uXXXX` for
other control characters and for everything outside `0x20`–`0x7e`, with a
surrogate pair above `0xffff`. -/
def escChar (c : Char) : String :=
  if c = '\\' then "\\\\"
  else if c = '"' then "\\\""
  else if c = Char.ofNat 8 then "\\b"
  else if c = Char.ofNat 12 then "\\f"
  else if c = '\n' then "\\n"
  else if c = '\r' then "\\r"
  else if c = '\t' then "\\t"
  else if c.toNat < 32 then "\\u" ++ toHex4 c.toNat
  else if c.toNat ≤ 126 then String.singleton c
  else if c.toNat < 65536 then "\\u" ++ toHex4 c.toNat
  else
    let v := c.toNat - 65536
    "\\u" ++ toHex4 (55296 + v / 1024) ++ "\\u" ++ toHex4 (56320 + v % 1024)

/-- A JSON string literal: quoted, characters escaped. -/
def encodeJsonString (s : String) : String :=
  "\"" ++ String.join (s.data.map escChar) ++ "\""

mutual
/-- `json.dumps(v)` with default arguments: item separator `", "`,
key separator `": "`, `ensure_ascii=True`. -/
def json_dumps : JsonVal → String
  | .null => "null"
  | .bool b => if b then "true" else "false"
  | .num n => toString n
  | .str s => encodeJsonString s
  | .arr elems => "[" ++ dumpsElems elems ++ "]"
  | .obj fields => "\x7b" ++ dumpsFields fields ++ "\x7d"

/-- Array elements joined by `", "`. -/
def dumpsElems : List JsonVal → String
  | [] => ""
  | [v] => json_dumps v
  | v :: v' :: rest => json_dumps v ++ ", " ++ dumpsElems (v' :: rest)

/-- Object members `"key": value` joined by `", "`. -/
def dumpsFields : List (String × JsonVal) → String
  | [] => ""
  | [(k, v)] => encodeJsonString k ++ ": " ++ json_dumps v
  | (k, v) :: f :: rest =>
    encodeJsonString k ++ ": " ++ json_dumps v ++ ", " ++ dumpsFields (f :: rest)
end

/-- One insertion step of Python's `dict(items)` construction: an existing
key keeps its position but takes the new value; a new key is appended. -/
def dictInsert (acc : List (String × JsonVal)) (k : String) (v : JsonVal) :
    List (String × JsonVal) :=
  if acc.any (fun p => p.1 = k) then
    acc.map (fun p => if p.1 = k then (k, v) else p)
  else acc ++ [(k, v)]

/-- Python's `dict(items)` on a pair list: first-occurrence order,
last value wins. -/
def dictOf (items : List (String × JsonVal)) : List (String × JsonVal) :=
  items.foldl (fun acc p => dictInsert acc p.1 p.2) []

/-- The key-path join of `flatten_dict`:
`new_key = f"{parent_key}{sep}{k}" if parent_key else k`. -/
def joinKey (parent_key sep k : String) : String :=
  if parent_key = "" then k else parent_key ++ sep ++ k

mutual
/-- `flatten_dict(d, parent_key='', sep='_')` from `connector.py`: build the
`items` list then return `dict(items)`. -/
def flatten_dict (d : List (String × JsonVal)) (parent_key : String := "")
    (sep : String := "_") : List (String × JsonVal) :=
  dictOf (flattenItems d parent_key sep)
termination_by (sizeOf d, 1)

/-- The `for k, v in d.items()` scan of `flatten_dict`: recurse into dict
values, serialize truthy lists (`json.dumps(v) if v else None`), pass
scalars through. -/
def flattenItems : List (String × JsonVal) → String → String →
    List (String × JsonVal)
  | [], _, _ => []
  | (k, v) :: rest, parent_key, sep =>
    let new_key := joinKey parent_key sep k
    (match v with
     | .obj fields => flatten_dict fields new_key sep
     | .arr elems =>
       [(new_key, if elems.isEmpty then JsonVal.null
                  else JsonVal.str (json_dumps (JsonVal.arr elems)))]
     | x => [(new_key, x)]) ++ flattenItems rest parent_key sep
termination_by d _ _ => (sizeOf d, 0)
end

/-- Values that are neither nested mappings nor sequences. -/
def isFlatVal : JsonVal → Bool
  | .obj _ => false
  | .arr _ => false
  | _ => true

/-! ## Step lemmas for the sync loop -/

section RunLoopSteps

variable {fetches : Nat → FetchOutcome} {limitEff max_records : Nat} {now : String}
variable {pageIdx skip total : Nat} {lastData : Option (List Record)}
variable {acc : List Checkpoint} {results : List Record}

lemma runLoop_stop (h : ¬ total < max_records) :
    runLoop fetches limitEff max_records now pageIdx skip total lastData acc =
      ⟨skip, total, lastData, acc, false, false⟩ := by
  rw [runLoop]; simp [h]

lemma runLoop_exn (h : total < max_records)
    (hf : fetches pageIdx = FetchOutcome.exn) :
    runLoop fetches limitEff max_records now pageIdx skip total lastData acc =
      ⟨skip, total, lastData, acc, true, false⟩ := by
  rw [runLoop]; simp [h, hf]

lemma runLoop_noResp (h : total < max_records)
    (hf : fetches pageIdx = FetchOutcome.noResp) :
    runLoop fetches limitEff max_records now pageIdx skip total lastData acc =
      ⟨skip, total, lastData, acc, false, true⟩ := by
  rw [runLoop]; simp [h, hf]

lemma runLoop_emptyPage (h : total < max_records)
    (hf : fetches pageIdx = FetchOutcome.page results)
    (he : results.isEmpty) :
    runLoop fetches limitEff max_records now pageIdx skip total lastData acc =
      ⟨skip, total, some results, acc, false, false⟩ := by
  rw [runLoop]; simp [h, hf, he]

lemma runLoop_shortPage (h : total < max_records)
    (hf : fetches pageIdx = FetchOutcome.page results)
    (hne : ¬ results.isEmpty) (hlt : results.length < limitEff) :
    runLoop fetches limitEff max_records now pageIdx skip total lastData acc =
      ⟨skip, total + results.length, some results, acc, false, false⟩ := by
  rw [runLoop]; simp [h, hf, hne, hlt]

lemma runLoop_fullPage (h : total < max_records)
    (hf : fetches pageIdx = FetchOutcome.page results)
    (hne : ¬ results.isEmpty) (hge : ¬ results.length < limitEff) :
    runLoop fetches limitEff max_records now pageIdx skip total lastData acc =
      runLoop fetches limitEff max_records now (pageIdx + 1) (skip + limitEff)
        (total + results.length) (some results)
        (acc ++ [⟨get_latest_report_date results now, total + results.length,
          skip + limitEff⟩]) := by
  conv_lhs => rw [runLoop]
  simp [h, hf, hne, hge]

end RunLoopSteps

/-! ## Retry-client lemmas -/

/-- The loop of the retry client never falls through to `return None` as
long as it performs at least one attempt. -/
lemma retryGo_ne_none (attempts : Nat → AttemptOutcome) (max_retries : Nat) :
    ∀ remaining attempt, attempt + remaining = max_retries → 0 < remaining →
    (retryGo attempts max_retries attempt remaining).result ≠ Except.ok none := by
  intro remaining
  induction remaining with
  | zero => intro attempt _ h; omega
  | succ n ih =>
    intro attempt hsum _
    rw [retryGo]
    cases hA : attempts attempt with
    | ok r => simp
    | err =>
      simp only
      by_cases hlt : attempt < max_retries - 1
      · simp only [if_pos hlt]
        exact ih (attempt + 1) (by omega) (by omega)
      · simp [if_neg hlt]

/-- When every attempt fails, the retry loop re-raises the last failure. -/
lemma retryGo_all_err (attempts : Nat → AttemptOutcome) (max_retries : Nat)
    (hall : ∀ i, i < max_retries → attempts i = AttemptOutcome.err) :
    ∀ remaining attempt, attempt + remaining = max_retries → 0 < remaining →
    (retryGo attempts max_retries attempt remaining).result =
      Except.error () := by
  intro remaining
  induction remaining with
  | zero => intro attempt _ h; omega
  | succ n ih =>
    intro attempt hsum _
    rw [retryGo]
    rw [hall attempt (by omega)]
    simp only
    by_cases hlt : attempt < max_retries - 1
    · simp only [if_pos hlt]
      exact ih (attempt + 1) (by omega) (by omega)
    · simp [if_neg hlt]

lemma runLoop_noneBreak_false (fetches : Nat → FetchOutcome)
    (limitEff max_records : Nat) (now : String)
    (h : ∀ n, fetches n ≠ FetchOutcome.noResp) :
    ∀ pageIdx skip total lastData acc,
    (runLoop fetches limitEff max_records now pageIdx skip total lastData
      acc).noneBreak = false := by
  refine runLoop.induct fetches limitEff max_records now
    (fun pageIdx skip total lastData acc =>
      (runLoop fetches limitEff max_records now pageIdx skip total lastData
        acc).noneBreak = false) ?_ ?_ ?_ ?_ ?_ ?_
  · intro pageIdx skip total lastData acc hlt hf
    rw [runLoop_exn hlt hf]
  · intro pageIdx skip total lastData acc hlt hf
    exact absurd hf (h pageIdx)
  · intro pageIdx skip total lastData acc hlt results hf he
    rw [runLoop_emptyPage hlt hf he]
  · intro pageIdx skip total lastData acc hlt results hf hne hshort
    rw [runLoop_shortPage hlt hf hne hshort]
  · intro pageIdx skip total lastData acc hlt results hf hne total' hge skip' cp ih
    rw [runLoop_fullPage hlt hf hne hge]
    exact ih
  · intro pageIdx skip total lastData acc hstop
    rw [runLoop_stop hstop]

/-- If the last per-page checkpoint cursor is bounded by `now` and by the
cursor of the current `data` batch, it is bounded by the final cursor. -/
lemma le_finalCursor {l now : String} {lastData : Option (List Record)}
    (hnow : l ≤ now)
    (hld : ∀ r, lastData = some r → ¬ r.isEmpty →
      l ≤ get_latest_report_date r now) :
    l ≤ finalCursor lastData now := by
  cases lastData with
  | none => simpa [finalCursor] using hnow
  | some r =>
    by_cases he : r.isEmpty
    · simpa [finalCursor, he] using hnow
    · simpa [finalCursor, he] using hld r rfl he

lemma finalCursor_some {now : String} (r : List Record) :
    finalCursor (some r) now =
      if r.isEmpty then now else get_latest_report_date r now := rfl

lemma runLoop_cursor_chain (fetches : Nat → FetchOutcome)
    (limitEff max_records : Nat) (now : String)
    (Hmono : ∀ i j ri rj, i ≤ j → fetches i = FetchOutcome.page ri →
      fetches j = FetchOutcome.page rj → ¬ ri.isEmpty → ¬ rj.isEmpty →
      get_latest_report_date ri now ≤ get_latest_report_date rj now)
    (Hnow : ∀ i ri, fetches i = FetchOutcome.page ri → ¬ ri.isEmpty →
      get_latest_report_date ri now ≤ now) :
    ∀ pageIdx skip total lastData acc,
    (List.Chain' (· ≤ ·) (acc.map Checkpoint.last_sync_date) ∧
     (∀ l, (acc.map Checkpoint.last_sync_date).getLast? = some l →
        l ≤ now ∧
        (∀ j rj, pageIdx ≤ j → fetches j = FetchOutcome.page rj →
          ¬ rj.isEmpty → l ≤ get_latest_report_date rj now) ∧
        (∀ r, lastData = some r → ¬ r.isEmpty →
          l ≤ get_latest_report_date r now))) →
    (List.Chain' (· ≤ ·)
       ((runLoop fetches limitEff max_records now pageIdx skip total lastData
         acc).checkpoints.map Checkpoint.last_sync_date) ∧
     (∀ l, ((runLoop fetches limitEff max_records now pageIdx skip total
         lastData acc).checkpoints.map Checkpoint.last_sync_date).getLast? =
           some l →
        l ≤ finalCursor (runLoop fetches limitEff max_records now pageIdx skip
          total lastData acc).lastData now)) := by
  refine runLoop.induct fetches limitEff max_records now
    (fun pageIdx skip total lastData acc =>
      (List.Chain' (· ≤ ·) (acc.map Checkpoint.last_sync_date) ∧
       (∀ l, (acc.map Checkpoint.last_sync_date).getLast? = some l →
          l ≤ now ∧
          (∀ j rj, pageIdx ≤ j → fetches j = FetchOutcome.page rj →
            ¬ rj.isEmpty → l ≤ get_latest_report_date rj now) ∧
          (∀ r, lastData = some r → ¬ r.isEmpty →
            l ≤ get_latest_report_date r now))) →
      (List.Chain' (· ≤ ·)
         ((runLoop fetches limitEff max_records now pageIdx skip total
           lastData acc).checkpoints.map Checkpoint.last_sync_date) ∧
       (∀ l, ((runLoop fetches limitEff max_records now pageIdx skip total
           lastData acc).checkpoints.map Checkpoint.last_sync_date).getLast? =
             some l →
          l ≤ finalCursor (runLoop fetches limitEff max_records now pageIdx
            skip total lastData acc).lastData now)))
    ?_ ?_ ?_ ?_ ?_ ?_
  · -- exn
    intro pageIdx skip total lastData acc hlt hf ⟨hchain, hlast⟩
    rw [runLoop_exn hlt hf]
    refine ⟨hchain, fun l hl => ?_⟩
    obtain ⟨h1, _, h3⟩ := hlast l hl
    exact le_finalCursor h1 h3
  · -- noResp
    intro pageIdx skip total lastData acc hlt hf ⟨hchain, hlast⟩
    rw [runLoop_noResp hlt hf]
    refine ⟨hchain, fun l hl => ?_⟩
    obtain ⟨h1, _, h3⟩ := hlast l hl
    exact le_finalCursor h1 h3
  · -- empty page
    intro pageIdx skip total lastData acc hlt results hf he ⟨hchain, hlast⟩
    rw [runLoop_emptyPage hlt hf he]
    refine ⟨hchain, fun l hl => ?_⟩
    obtain ⟨h1, _, _⟩ := hlast l hl
    rw [finalCursor_some, if_pos he]
    exact h1
  · -- short page
    intro pageIdx skip total lastData acc hlt results hf hne hshort
      ⟨hchain, hlast⟩
    rw [runLoop_shortPage hlt hf hne hshort]
    refine ⟨hchain, fun l hl => ?_⟩
    obtain ⟨_, h2, _⟩ := hlast l hl
    rw [finalCursor_some, if_neg hne]
    exact h2 pageIdx results le_rfl hf hne
  · -- full page
    intro pageIdx skip total lastData acc hlt results hf hne total' hge skip'
      cp ih ⟨hchain, hlast⟩
    rw [runLoop_fullPage hlt hf hne hge]
    refine ih ⟨?_, ?_⟩
    · rw [List.map_append]
      refine List.Chain'.append hchain (List.chain'_singleton _) ?_
      intro x hx y hy
      simp only [List.map_cons, List.map_nil, List.head?_cons,
        Option.mem_def, Option.some.injEq] at hy
      obtain ⟨_, h2, _⟩ := hlast x hx
      subst hy
      exact h2 pageIdx results le_rfl hf hne
    · intro l hl
      rw [List.map_append] at hl
      simp only [List.map_cons, List.map_nil] at hl
      rw [List.getLast?_concat] at hl
      obtain rfl : get_latest_report_date results now = l :=
        Option.some.inj hl
      refine ⟨Hnow pageIdx results hf hne, fun j rj hj hfj hnej => ?_,
        fun r hr hner => ?_⟩
      · exact Hmono pageIdx j results rj (by omega) hf hfj hne hnej
      · obtain rfl : results = r := Option.some.inj hr
        exact le_rfl
  · -- loop condition false
    intro pageIdx skip total lastData acc hstop ⟨hchain, hlast⟩
    rw [runLoop_stop hstop]
    refine ⟨hchain, fun l hl => ?_⟩
    obtain ⟨h1, _, h3⟩ := hlast l hl
    exact le_finalCursor h1 h3

lemma runLoop_totals (fetches : Nat → FetchOutcome)
    (limitEff max_records : Nat) (now : String) (t0 : Nat) :
    ∀ pageIdx skip total lastData acc,
    (t0 ≤ total ∧
     List.Chain' (· ≤ ·) (acc.map Checkpoint.total_processed) ∧
     (∀ cp ∈ acc, t0 ≤ cp.total_processed) ∧
     (∀ l, (acc.map Checkpoint.total_processed).getLast? = some l →
        l ≤ total)) →
    (List.Chain' (· ≤ ·)
       ((runLoop fetches limitEff max_records now pageIdx skip total lastData
         acc).checkpoints.map Checkpoint.total_processed) ∧
     (∀ cp ∈ (runLoop fetches limitEff max_records now pageIdx skip total
         lastData acc).checkpoints, t0 ≤ cp.total_processed) ∧
     (∀ l, ((runLoop fetches limitEff max_records now pageIdx skip total
         lastData acc).checkpoints.map Checkpoint.total_processed).getLast? =
           some l →
        l ≤ (runLoop fetches limitEff max_records now pageIdx skip total
          lastData acc).total) ∧
     total ≤ (runLoop fetches limitEff max_records now pageIdx skip total
       lastData acc).total) := by
  refine runLoop.induct fetches limitEff max_records now
    (fun pageIdx skip total lastData acc =>
      (t0 ≤ total ∧
       List.Chain' (· ≤ ·) (acc.map Checkpoint.total_processed) ∧
       (∀ cp ∈ acc, t0 ≤ cp.total_processed) ∧
       (∀ l, (acc.map Checkpoint.total_processed).getLast? = some l →
          l ≤ total)) →
      (List.Chain' (· ≤ ·)
         ((runLoop fetches limitEff max_records now pageIdx skip total
           lastData acc).checkpoints.map Checkpoint.total_processed) ∧
       (∀ cp ∈ (runLoop fetches limitEff max_records now pageIdx skip total
           lastData acc).checkpoints, t0 ≤ cp.total_processed) ∧
       (∀ l, ((runLoop fetches limitEff max_records now pageIdx skip total
           lastData acc).checkpoints.map
             Checkpoint.total_processed).getLast? = some l →
          l ≤ (runLoop fetches limitEff max_records now pageIdx skip total
            lastData acc).total) ∧
       total ≤ (runLoop fetches limitEff max_records now pageIdx skip total
         lastData acc).total)) ?_ ?_ ?_ ?_ ?_ ?_
  · intro pageIdx skip total lastData acc hlt hf ⟨h0, hchain, hmem, hlast⟩
    rw [runLoop_exn hlt hf]
    exact ⟨hchain, hmem, hlast, le_rfl⟩
  · intro pageIdx skip total lastData acc hlt hf ⟨h0, hchain, hmem, hlast⟩
    rw [runLoop_noResp hlt hf]
    exact ⟨hchain, hmem, hlast, le_rfl⟩
  · intro pageIdx skip total lastData acc hlt results hf he
      ⟨h0, hchain, hmem, hlast⟩
    rw [runLoop_emptyPage hlt hf he]
    exact ⟨hchain, hmem, hlast, le_rfl⟩
  · intro pageIdx skip total lastData acc hlt results hf hne hshort
      ⟨h0, hchain, hmem, hlast⟩
    rw [runLoop_shortPage hlt hf hne hshort]
    dsimp only
    exact ⟨hchain, hmem, fun l hl => le_trans (hlast l hl) (by omega),
      by omega⟩
  · intro pageIdx skip total lastData acc hlt results hf hne total' hge skip'
      cp ih ⟨h0, hchain, hmem, hlast⟩
    rw [runLoop_fullPage hlt hf hne hge]
    have hrec := ih ⟨show t0 ≤ total + results.length by omega, ?_, ?_, ?_⟩
    · exact ⟨hrec.1, hrec.2.1, hrec.2.2.1,
        le_trans (show total ≤ total + results.length by omega) hrec.2.2.2⟩
    · rw [List.map_append]
      refine List.Chain'.append hchain (List.chain'_singleton _) ?_
      intro x hx y hy
      simp only [List.map_cons, List.map_nil, List.head?_cons,
        Option.mem_def, Option.some.injEq] at hy
      subst hy
      exact le_trans (hlast x hx)
        (show total ≤ total + results.length by omega)
    · intro c hc
      rcases List.mem_append.1 hc with hc | hc
      · exact hmem c hc
      · rcases List.mem_singleton.1 hc with rfl
        show t0 ≤ total + results.length
        omega
    · intro l hl
      rw [List.map_append] at hl
      simp only [List.map_cons, List.map_nil] at hl
      rw [List.getLast?_concat] at hl
      obtain rfl : total' = l := Option.some.inj hl
      exact le_rfl
  · intro pageIdx skip total lastData acc hstop ⟨h0, hchain, hmem, hlast⟩
    rw [runLoop_stop hstop]
    exact ⟨hchain, hmem, hlast, le_rfl⟩

lemma not_isEmpty_of_length_pos {α : Type} {l : List α} (h : 0 < l.length) :
    ¬ l.isEmpty := by
  cases l with
  | nil => simp at h
  | cons a t => simp

lemma runLoop_fullPages (fetches : Nat → FetchOutcome)
    (limitEff max_records : Nat) (now : String) :
    ∀ (ps : List (List Record)) (pageIdx skip total : Nat)
      (lastData : Option (List Record)) (acc : List Checkpoint)
      (q : List Record),
    (∀ k (hk : k < ps.length),
      fetches (pageIdx + k) = FetchOutcome.page (ps.get ⟨k, hk⟩)) →
    (∀ p ∈ ps, p.length = limitEff) →
    fetches (pageIdx + ps.length) = FetchOutcome.page q →
    ¬ q.isEmpty → q.length < limitEff →
    total + ps.length * limitEff < max_records →
    ((runLoop fetches limitEff max_records now pageIdx skip total lastData
        acc).checkpoints.length = acc.length + ps.length ∧
     (runLoop fetches limitEff max_records now pageIdx skip total lastData
        acc).errored = false ∧
     (runLoop fetches limitEff max_records now pageIdx skip total lastData
        acc).lastData = some q ∧
     (runLoop fetches limitEff max_records now pageIdx skip total lastData
        acc).total = total + ps.length * limitEff + q.length) := by
  intro ps
  induction ps with
  | nil =>
    intro pageIdx skip total lastData acc q hk hfull hq hne hshort hmr
    simp only [List.length_nil, Nat.add_zero, Nat.zero_mul] at hq hmr ⊢
    rw [runLoop_shortPage (by omega) hq hne hshort]
    exact ⟨rfl, rfl, rfl, rfl⟩
  | cons p ps' ih =>
    intro pageIdx skip total lastData acc q hk hfull hq hne hshort hmr
    have hp : p.length = limitEff := hfull p (List.mem_cons_self p ps')
    have hqlen : 0 < q.length := by
      cases q with
      | nil => simp at hne
      | cons a t => simp
    have hple : ¬ p.isEmpty := not_isEmpty_of_length_pos (by omega)
    have h0 : fetches pageIdx = FetchOutcome.page p := by
      have := hk 0 (by simp)
      simpa using this
    simp only [List.length_cons, Nat.succ_mul] at hmr
    have hlt : total < max_records := by omega
    rw [runLoop_fullPage hlt h0 hple (by omega)]
    obtain ⟨h1, h2, h3, h4⟩ := ih (pageIdx + 1) (skip + limitEff)
      (total + p.length) (some p)
      (acc ++ [⟨get_latest_report_date p now, total + p.length,
        skip + limitEff⟩]) q
      (fun k hk' => by
        have := hk (k + 1) (by simpa using Nat.succ_lt_succ hk')
        simpa [Nat.add_assoc, Nat.add_comm 1 k] using this)
      (fun r hr => hfull r (List.mem_cons_of_mem p hr))
      (by
        have heq : pageIdx + (ps'.length + 1) = pageIdx + 1 + ps'.length := by
          omega
        rw [← heq]
        simpa using hq)
      hne hshort (by omega)
    refine ⟨?_, h2, h3, ?_⟩
    · rw [h1]
      simp only [List.length_append, List.length_cons, List.length_nil,
        List.length_cons]
      omega
    · rw [h4, hp]
      simp only [List.length_cons, Nat.succ_mul]
      omega

lemma runLoop_fullPages_exn (fetches : Nat → FetchOutcome)
    (limitEff max_records : Nat) (now : String) :
    ∀ (ps : List (List Record)) (pageIdx skip total : Nat)
      (lastData : Option (List Record)) (acc : List Checkpoint),
    (∀ k (hk : k < ps.length),
      fetches (pageIdx + k) = FetchOutcome.page (ps.get ⟨k, hk⟩)) →
    (∀ p ∈ ps, p.length = limitEff) → 0 < limitEff →
    fetches (pageIdx + ps.length) = FetchOutcome.exn →
    total + ps.length * limitEff < max_records →
    ((runLoop fetches limitEff max_records now pageIdx skip total lastData
        acc).checkpoints.length = acc.length + ps.length ∧
     (runLoop fetches limitEff max_records now pageIdx skip total lastData
        acc).errored = true ∧
     (runLoop fetches limitEff max_records now pageIdx skip total lastData
        acc).total = total + ps.length * limitEff) := by
  intro ps
  induction ps with
  | nil =>
    intro pageIdx skip total lastData acc hk hfull hpos hx hmr
    simp only [List.length_nil, Nat.add_zero, Nat.zero_mul] at hx hmr ⊢
    rw [runLoop_exn (by omega) hx]
    exact ⟨rfl, rfl, rfl⟩
  | cons p ps' ih =>
    intro pageIdx skip total lastData acc hk hfull hpos hx hmr
    have hp : p.length = limitEff := hfull p (List.mem_cons_self p ps')
    have hple : ¬ p.isEmpty := not_isEmpty_of_length_pos (by omega)
    have h0 : fetches pageIdx = FetchOutcome.page p := by
      have := hk 0 (by simp)
      simpa using this
    simp only [List.length_cons, Nat.succ_mul] at hmr
    have hlt : total < max_records := by omega
    rw [runLoop_fullPage hlt h0 hple (by omega)]
    obtain ⟨h1, h2, h3⟩ := ih (pageIdx + 1) (skip + limitEff)
      (total + p.length) (some p)
      (acc ++ [⟨get_latest_report_date p now, total + p.length,
        skip + limitEff⟩])
      (fun k hk2 => by
        have := hk (k + 1) (by simpa using Nat.succ_lt_succ hk2)
        simpa [Nat.add_assoc, Nat.add_comm 1 k] using this)
      (fun r hr => hfull r (List.mem_cons_of_mem p hr))
      hpos
      (by
        have heq : pageIdx + (ps'.length + 1) = pageIdx + 1 + ps'.length := by
          omega
        rw [← heq]
        simpa using hx)
      (by omega)
    refine ⟨?_, h2, ?_⟩
    · rw [h1]
      simp only [List.length_append, List.length_cons, List.length_nil]
      omega
    · rw [h3, hp]
      simp only [List.length_cons, Nat.succ_mul]
      omega

lemma validDates_nil : validDates [] = [] := rfl

lemma validDates_cons (r : Record) (rest : List Record) :
    validDates (r :: rest) =
      match r.report_date with
      | none => validDates rest
      | some rd =>
        if rd ≠ "" ∧ rd.length = 8 then normalizeDate rd :: validDates rest
        else validDates rest := by
  cases hrd : r.report_date with
  | none => simp [validDates, List.filterMap_cons, hrd]
  | some rd =>
    by_cases hc : rd ≠ "" ∧ rd.length = 8
    · simp [validDates, List.filterMap_cons, hrd, hc]
    · simp [validDates, List.filterMap_cons, hrd, hc]

lemma foldl_latestStep_spec :
    ∀ (records : List Record) (acc : Option String),
    (records.foldl latestStep acc = none →
      acc = none ∧ validDates records = []) ∧
    (∀ m, records.foldl latestStep acc = some m →
      (m ∈ validDates records ∨ acc = some m) ∧
      (∀ x ∈ validDates records, x ≤ m) ∧
      (∀ a, acc = some a → a ≤ m)) := by
  intro records
  induction records with
  | nil =>
    intro acc
    refine ⟨fun h => ⟨h, rfl⟩, fun m hm => ?_⟩
    refine ⟨Or.inr hm, by simp [validDates_nil], fun a ha => ?_⟩
    rw [ha] at hm
    exact le_of_eq (Option.some.inj hm)
  | cons r rest ih =>
    intro acc
    rw [List.foldl_cons]
    cases hrd : r.report_date with
    | none =>
      have hstep : latestStep acc r = acc := by simp [latestStep, hrd]
      rw [hstep, validDates_cons, hrd]
      exact ih acc
    | some rd =>
      by_cases hempty : rd = ""
      · have hstep : latestStep acc r = acc := by
          simp [latestStep, hrd, hempty]
        rw [hstep, validDates_cons, hrd]
        have hc : ¬ (rd ≠ "" ∧ rd.length = 8) := by simp [hempty]
        simp only [if_neg hc]
        exact ih acc
      · by_cases hlen : rd.length = 8
        · -- the interesting case: a valid date
          have hc : rd ≠ "" ∧ rd.length = 8 := ⟨hempty, hlen⟩
          rw [validDates_cons, hrd]
          simp only [if_pos hc]
          set iso := normalizeDate rd with hiso
          -- the step produces some a' with the max-so-far properties
          have hstep : ∃ a', latestStep acc r = some a' ∧ iso ≤ a' ∧
              (∀ b, acc = some b → b ≤ a') ∧
              (a' = iso ∨ acc = some a') := by
            cases hacc : acc with
            | none =>
              refine ⟨iso, ?_, le_rfl, by simp, Or.inl rfl⟩
              simp [latestStep, hrd, hempty, hlen, hacc, hiso]
            | some l =>
              by_cases hlt : l < iso
              · refine ⟨iso, ?_, le_rfl,
                  fun b hb => le_of_lt (by
                    obtain rfl : l = b := Option.some.inj hb
                    exact hlt), Or.inl rfl⟩
                simp [latestStep, hrd, hempty, hlen, hacc, hiso, hlt]
              · refine ⟨l, ?_, le_of_not_lt hlt,
                  fun b hb => by
                    obtain rfl : l = b := Option.some.inj hb
                    exact le_rfl, Or.inr rfl⟩
                simp [latestStep, hrd, hempty, hlen, hacc, hiso, hlt]
          obtain ⟨a', hstep', hisole, haccle, hor⟩ := hstep
          rw [hstep']
          constructor
          · intro hnone
            exact absurd (ih (some a')).1 (by simp [hnone])
          · intro m hm
            obtain ⟨hmem, hbound, hante⟩ := (ih (some a')).2 m hm
            have ham : a' ≤ m := hante a' rfl
            refine ⟨?_, ?_, ?_⟩
            · rcases hmem with hmem | hmem
              · exact Or.inl (List.mem_cons_of_mem _ hmem)
              · obtain rfl : a' = m := Option.some.inj hmem
                rcases hor with rfl | hacc'
                · exact Or.inl (List.mem_cons_self _ _)
                · exact Or.inr hacc'
            · intro x hx
              rcases List.mem_cons.1 hx with rfl | hx
              · exact le_trans hisole ham
              · exact hbound x hx
            · intro a ha
              exact le_trans (haccle a ha) ham
        · have hstep : latestStep acc r = acc := by
            simp [latestStep, hrd, hempty, hlen]
          rw [hstep, validDates_cons, hrd]
          have hc : ¬ (rd ≠ "" ∧ rd.length = 8) := by simp [hlen]
          simp only [if_neg hc]
          exact ih acc

/-! ## Flattener lemmas -/

/-- Keys of a pair list. -/
def keysOf (l : List (String × JsonVal)) : List String := l.map Prod.fst

lemma dictInsert_keys_mem {acc : List (String × JsonVal)} {k : String}
    {v : JsonVal} (h : acc.any (fun p => p.1 = k)) :
    keysOf (dictInsert acc k v) = keysOf acc := by
  simp only [dictInsert, if_pos h, keysOf, List.map_map]
  apply List.map_congr_left
  intro p hp
  by_cases hk : p.1 = k
  · simp [hk]
  · simp [hk]

lemma dictInsert_keys_not_mem {acc : List (String × JsonVal)} {k : String}
    {v : JsonVal} (h : ¬ acc.any (fun p => p.1 = k)) :
    keysOf (dictInsert acc k v) = keysOf acc ++ [k] := by
  simp [dictInsert, if_neg h, keysOf]

lemma dictOf_aux_keys_nodup :
    ∀ (items acc : List (String × JsonVal)), (keysOf acc).Nodup →
    (keysOf (items.foldl (fun acc p => dictInsert acc p.1 p.2) acc)).Nodup := by
  intro items
  induction items with
  | nil => intro acc h; simpa using h
  | cons p rest ih =>
    intro acc h
    rw [List.foldl_cons]
    apply ih
    by_cases hmem : acc.any (fun q => q.1 = p.1)
    · rw [dictInsert_keys_mem hmem]; exact h
    · rw [dictInsert_keys_not_mem hmem]
      rw [List.nodup_append]
      refine ⟨h, List.nodup_singleton _, ?_⟩
      intro x hx hxmem
      rw [List.mem_singleton] at hxmem
      subst hxmem
      obtain ⟨q, hq, hq1⟩ := List.mem_map.1 hx
      rw [List.any_eq_true] at hmem
      exact hmem ⟨q, hq, by simp [hq1]⟩

lemma dictOf_keys_nodup (items : List (String × JsonVal)) :
    (keysOf (dictOf items)).Nodup :=
  dictOf_aux_keys_nodup items [] (by simp [keysOf])

lemma dictOf_aux_of_nodupKeys :
    ∀ (l acc : List (String × JsonVal)), (keysOf (acc ++ l)).Nodup →
    l.foldl (fun acc p => dictInsert acc p.1 p.2) acc = acc ++ l := by
  intro l
  induction l with
  | nil => intro acc _; simp
  | cons p rest ih =>
    intro acc h
    rw [List.foldl_cons]
    have hknotin : ¬ acc.any (fun q => q.1 = p.1) := by
      rw [List.any_eq_true]
      rintro ⟨q, hq, hq1⟩
      rw [decide_eq_true_eq] at hq1
      have h1 : p.1 ∈ keysOf acc := hq1 ▸ List.mem_map_of_mem Prod.fst hq
      have h2 : p.1 ∈ keysOf (p :: rest) := by
        simp [keysOf]
      have := (List.nodup_append.1 (by simpa [keysOf] using h)).2.2
      exact this h1 h2
    have hins : dictInsert acc p.1 p.2 = acc ++ [p] := by
      rw [dictInsert, if_neg hknotin]
    rw [hins]
    have := ih (acc ++ [p]) (by simpa [keysOf] using h)
    rw [this, List.append_assoc]
    rfl

lemma dictOf_of_nodupKeys {l : List (String × JsonVal)}
    (h : (keysOf l).Nodup) : dictOf l = l := by
  have := dictOf_aux_of_nodupKeys l [] (by simpa [keysOf] using h)
  simpa [dictOf] using this

lemma flattenItems_of_flat (sep : String) :
    ∀ (l : List (String × JsonVal)), (∀ kv ∈ l, isFlatVal kv.2) →
    flattenItems l "" sep = l := by
  intro l
  induction l with
  | nil => intro _; rw [flattenItems]
  | cons kv rest ih =>
    intro h
    obtain ⟨k, v⟩ := kv
    have hv : isFlatVal v := h (k, v) (List.mem_cons_self _ _)
    have hrest := ih fun x hx => h x (List.mem_cons_of_mem _ hx)
    cases v with
    | null => simp [flattenItems, joinKey, hrest]
    | bool b => simp [flattenItems, joinKey, hrest]
    | num n => simp [flattenItems, joinKey, hrest]
    | str s => simp [flattenItems, joinKey, hrest]
    | arr elems => simp [isFlatVal] at hv
    | obj fields => simp [isFlatVal] at hv

/-- The contribution of one `(k, v)` entry to the `items` list of
`flatten_dict`. -/
def flattenEntry (parent_key sep k : String) (v : JsonVal) :
    List (String × JsonVal) :=
  match v with
  | .obj fields => flatten_dict fields (joinKey parent_key sep k) sep
  | .arr elems =>
    [(joinKey parent_key sep k,
      if elems.isEmpty then JsonVal.null
      else JsonVal.str (json_dumps (JsonVal.arr elems)))]
  | x => [(joinKey parent_key sep k, x)]

lemma flattenItems_cons (k : String) (v : JsonVal)
    (rest : List (String × JsonVal)) (parent_key sep : String) :
    flattenItems ((k, v) :: rest) parent_key sep =
      flattenEntry parent_key sep k v ++ flattenItems rest parent_key sep := by
  cases v with
  | null => simp [flattenItems, flattenEntry]
  | bool b => simp [flattenItems, flattenEntry]
  | num n => simp [flattenItems, flattenEntry]
  | str s => simp [flattenItems, flattenEntry]
  | arr elems => simp [flattenItems, flattenEntry]
  | obj fields => simp [flattenItems, flattenEntry]

lemma mem_flattenItems_of_mem :
    ∀ (d : List (String × JsonVal)) (parent_key sep k : String) (v : JsonVal),
    (k, v) ∈ d → ∀ x ∈ flattenEntry parent_key sep k v,
    x ∈ flattenItems d parent_key sep := by
  intro d
  induction d with
  | nil => intro _ _ _ _ h; simp at h
  | cons kv rest ih =>
    intro parent_key sep k v h x hx
    obtain ⟨k', v'⟩ := kv
    rw [flattenItems_cons]
    rcases List.mem_cons.1 h with heq | hmem
    · obtain ⟨rfl, rfl⟩ := Prod.mk.injEq .. ▸ heq
      exact List.mem_append_left _ hx
    · exact List.mem_append_right _ (ih parent_key sep k v hmem x hx)

lemma flatten_dict_eq_items_of_nodup {d : List (String × JsonVal)}
    {parent_key sep : String}
    (h : (keysOf (flattenItems d parent_key sep)).Nodup) :
    flatten_dict d parent_key sep = flattenItems d parent_key sep := by
  rw [flatten_dict]
  exact dictOf_of_nodupKeys h

lemma update_errored_eq {fetches : Nat → FetchOutcome}
    {limit max_records : Nat} {st : SyncState} {now : String}
    (h : (runLoop fetches (min limit 1000) max_records now 0 0
      st.total_processed none []).errored = true) :
    update fetches limit max_records st now =
      ⟨(runLoop fetches (min limit 1000) max_records now 0 0
        st.total_processed none []).checkpoints, true⟩ := by
  simp [update, h]

lemma update_ok_eq {fetches : Nat → FetchOutcome}
    {limit max_records : Nat} {st : SyncState} {now : String}
    (h : (runLoop fetches (min limit 1000) max_records now 0 0
      st.total_processed none []).errored = false) :
    update fetches limit max_records st now =
      ⟨(runLoop fetches (min limit 1000) max_records now 0 0
          st.total_processed none []).checkpoints ++
        [⟨finalCursor (runLoop fetches (min limit 1000) max_records now 0 0
            st.total_processed none []).lastData now,
          (runLoop fetches (min limit 1000) max_records now 0 0
            st.total_processed none []).total,
          (runLoop fetches (min limit 1000) max_records now 0 0
            st.total_processed none []).skip⟩], false⟩ := by
  simp [update, h]

/-! ## Claims -/

/-- C5: with the default maximum of 3 attempts, a request whose first two
attempts fail transiently and whose third succeeds returns the successful
response exactly once, after backoff waits of `2^0 = 1` second and
`2^1 = 2` seconds, a total elapsed backoff delay of 3 seconds. -/
theorem C5_retry_backoff_two_failures_then_success
    (attempts : Nat → AttemptOutcome) (r : Response)
    (h0 : attempts 0 = AttemptOutcome.err)
    (h1 : attempts 1 = AttemptOutcome.err)
    (h2 : attempts 2 = AttemptOutcome.ok r) :
    (make_api_request_with_retry attempts 3).result = Except.ok (some r) ∧
    (make_api_request_with_retry attempts 3).waits = [2 ^ 0, 2 ^ 1] ∧
    (make_api_request_with_retry attempts 3).waits.sum = 3 := by
  have h : make_api_request_with_retry attempts 3 =
      ⟨Except.ok (some r), [1, 2]⟩ := by
    simp [make_api_request_with_retry, retryGo, h0, h1, h2]
  rw [h]
  refine ⟨rfl, by norm_num, by norm_num⟩

/-- Witness for C5 at a concrete attempt oracle failing twice then
succeeding with an empty-results response. -/
theorem C5_witness :
    (make_api_request_with_retry
      (fun n => if n = 2 then AttemptOutcome.ok ⟨[]⟩ else AttemptOutcome.err)
      3).result = Except.ok (some ⟨[]⟩) ∧
    (make_api_request_with_retry
      (fun n => if n = 2 then AttemptOutcome.ok ⟨[]⟩ else AttemptOutcome.err)
      3).waits = [2 ^ 0, 2 ^ 1] ∧
    (make_api_request_with_retry
      (fun n => if n = 2 then AttemptOutcome.ok ⟨[]⟩ else AttemptOutcome.err)
      3).waits.sum = 3 :=
  C5_retry_backoff_two_failures_then_success
    (fun n => if n = 2 then AttemptOutcome.ok ⟨[]⟩ else AttemptOutcome.err)
    ⟨[]⟩ rfl rfl rfl

/-- C6: exhausting all retry attempts is not swallowed.  First conjunct:
the retry client re-raises the final failure.  Second conjunct: *every* run
whose pagination loop ends in such a failure surfaces a single error to the
caller, and the written checkpoints are exactly those the loop recorded
before the failure — no final checkpoint is appended.  Third conjunct: for
the general shape of an erroring run — any number of checkpointed full
pages followed by an exhausted-retries fetch (the only shape possible,
since any non-full page ends the loop normally) — the surviving checkpoints
are precisely the one-per-full-page ones and the error is surfaced. -/
theorem C6_retry_exhaustion_escalates :
    (∀ (attempts : Nat → AttemptOutcome) (max_retries : Nat),
      1 ≤ max_retries →
      (∀ i, i < max_retries → attempts i = AttemptOutcome.err) →
      (make_api_request_with_retry attempts max_retries).result =
        Except.error ()) ∧
    (∀ (fetches : Nat → FetchOutcome) (limit max_records : Nat)
       (st : SyncState) (now : String),
      (runLoop fetches (min limit 1000) max_records now 0 0
        st.total_processed none []).errored = true →
      update fetches limit max_records st now =
        ⟨(runLoop fetches (min limit 1000) max_records now 0 0
          st.total_processed none []).checkpoints, true⟩) ∧
    (∀ (ps : List (List Record)) (fetches : Nat → FetchOutcome)
       (limit max_records : Nat) (st : SyncState) (now : String),
      (∀ k (hk : k < ps.length),
        fetches k = FetchOutcome.page (ps.get ⟨k, hk⟩)) →
      (∀ p ∈ ps, p.length = min limit 1000) → 0 < min limit 1000 →
      fetches ps.length = FetchOutcome.exn →
      st.total_processed + ps.length * min limit 1000 < max_records →
      (update fetches limit max_records st now).checkpoints.length =
        ps.length ∧
      (update fetches limit max_records st now).errored = true) := by
  refine ⟨?_, ?_, ?_⟩
  · intro attempts mr h1 hall
    exact retryGo_all_err attempts mr hall mr 0 (by omega) (by omega)
  · intro fetches limit mr st now herr
    exact update_errored_eq herr
  · intro ps fetches limit mr st now hk hfull hpos hx hcap
    obtain ⟨h1, h2, h3⟩ :=
      runLoop_fullPages_exn fetches (min limit 1000) mr now ps 0 0
        st.total_processed none []
        (fun k hk2 => by simpa using hk k hk2) hfull hpos
        (by simpa using hx) hcap
    rw [update_errored_eq h2]
    exact ⟨by simpa using h1, rfl⟩

/-- Witness for C6: all three conjuncts at concrete inputs — three failing
attempts; a run failing at the very first fetch; and a run with one
checkpointed full page followed by an exhausted fetch. -/
theorem C6_witness :
    (make_api_request_with_retry (fun _ => AttemptOutcome.err) 3).result =
      Except.error () ∧
    update (fun _ => FetchOutcome.exn) 1000 5 ⟨none, 0⟩ "X" =
      ⟨(runLoop (fun _ => FetchOutcome.exn) (min 1000 1000) 5 "X" 0 0
        (SyncState.mk none 0).total_processed none []).checkpoints, true⟩ ∧
    ((update (fun n => if n = 0 then FetchOutcome.page [⟨some "20240101"⟩]
        else FetchOutcome.exn) 1 10 ⟨none, 0⟩ "X").checkpoints.length =
      List.length [[(⟨some "20240101"⟩ : Record)]] ∧
     (update (fun n => if n = 0 then FetchOutcome.page [⟨some "20240101"⟩]
        else FetchOutcome.exn) 1 10 ⟨none, 0⟩ "X").errored = true) :=
  ⟨C6_retry_exhaustion_escalates.1 (fun _ => AttemptOutcome.err) 3
    (by norm_num) (fun i _ => rfl),
   C6_retry_exhaustion_escalates.2.1 (fun _ => FetchOutcome.exn) 1000 5
    ⟨none, 0⟩ "X" (by rw [runLoop_exn (by norm_num) rfl]),
   C6_retry_exhaustion_escalates.2.2 [[⟨some "20240101"⟩]]
    (fun n => if n = 0 then FetchOutcome.page [⟨some "20240101"⟩]
      else FetchOutcome.exn) 1 10 ⟨none, 0⟩ "X"
    (fun k hk2 => by
      simp only [List.length_singleton] at hk2
      obtain rfl : k = 0 := by omega
      rfl)
    (by
      intro p hp
      rw [List.mem_singleton] at hp
      subst hp
      rfl)
    (by norm_num) rfl (by norm_num)⟩

/-- C10: for any maximum attempt count of at least 1, the retry client never
returns its declared `None` result — every call returns a response or
raises (first conjunct) — and consequently, for any fetch oracle that never
produces an absent response (as the retry client therefore guarantees), the
sync loop's `if not response: break` branch never runs (second conjunct). -/
theorem C10_no_absent_response (attempts : Nat → AttemptOutcome)
    (max_retries : Nat) (hmr : 1 ≤ max_retries)
    (fetches : Nat → FetchOutcome) (limit max_records : Nat) (st : SyncState)
    (now : String) (hfet : ∀ n, fetches n ≠ FetchOutcome.noResp) :
    (make_api_request_with_retry attempts max_retries).result ≠
      Except.ok none ∧
    (runLoop fetches (min limit 1000) max_records now 0 0 st.total_processed
      none []).noneBreak = false :=
  ⟨retryGo_ne_none attempts max_retries max_retries 0 (by omega) (by omega),
   runLoop_noneBreak_false fetches (min limit 1000) max_records now hfet 0 0
     st.total_processed none []⟩

/-- Witness for C10 at a concrete failing oracle and a page-only fetch
oracle. -/
theorem C10_witness :
    (make_api_request_with_retry (fun _ => AttemptOutcome.err) 3).result ≠
      Except.ok none ∧
    (runLoop (fun _ => FetchOutcome.page []) (min 1000 1000) 5 "X" 0 0
      (SyncState.mk none 0).total_processed none []).noneBreak = false :=
  C10_no_absent_response (fun _ => AttemptOutcome.err) 3 (by norm_num)
    (fun _ => FetchOutcome.page []) 1000 5 ⟨none, 0⟩ "X"
    (fun n h => FetchOutcome.noConfusion h)

/-- C7: in every run, the `total_processed` values of the successive
checkpoints are non-decreasing and every checkpoint's `total_processed` is
at least the input state's count. -/
theorem C7_total_processed_monotone (fetches : Nat → FetchOutcome)
    (limit max_records : Nat) (st : SyncState) (now : String) :
    List.Chain' (· ≤ ·)
      ((update fetches limit max_records st now).checkpoints.map
        Checkpoint.total_processed) ∧
    ∀ cp ∈ (update fetches limit max_records st now).checkpoints,
      st.total_processed ≤ cp.total_processed := by
  obtain ⟨hchain, hmem, hlast, htot⟩ :=
    runLoop_totals fetches (min limit 1000) max_records now st.total_processed
      0 0 st.total_processed none []
      ⟨le_rfl, by simp, by simp, by simp⟩
  by_cases herr : (runLoop fetches (min limit 1000) max_records now 0 0
      st.total_processed none []).errored
  · rw [update_errored_eq herr]
    exact ⟨hchain, hmem⟩
  · simp only [Bool.not_eq_true] at herr
    rw [update_ok_eq herr]
    refine ⟨?_, ?_⟩
    · rw [List.map_append]
      refine List.Chain'.append hchain (List.chain'_singleton _) ?_
      intro x hx y hy
      simp only [List.map_cons, List.map_nil, List.head?_cons,
        Option.mem_def, Option.some.injEq] at hy
      subst hy
      exact hlast x hx
    · intro cp hcp
      rcases List.mem_append.1 hcp with hcp | hcp
      · exact hmem cp hcp
      · rcases List.mem_singleton.1 hcp with rfl
        exact htot

/-- Witness for C7 at a concrete two-page run. -/
theorem C7_witness :
    List.Chain' (· ≤ ·)
      ((update (fun _ => FetchOutcome.page [⟨some "20240101"⟩]) 2 10
        ⟨none, 3⟩ "X").checkpoints.map Checkpoint.total_processed) ∧
    ∀ cp ∈ (update (fun _ => FetchOutcome.page [⟨some "20240101"⟩]) 2 10
      ⟨none, 3⟩ "X").checkpoints, (SyncState.mk none 3).total_processed ≤
        cp.total_processed :=
  C7_total_processed_monotone (fun _ => FetchOutcome.page [⟨some "20240101"⟩])
    2 10 ⟨none, 3⟩ "X"

/-- C3 (amended): when the input state's `total_processed` already meets
`max_records`, the run performs zero fetches (the result is the same for
every fetch oracle, including one that always fails) and writes exactly one
final checkpoint — whose `last_sync_date` is the wall-clock time, regardless
of the input cursor. -/
theorem C3_cap_reached_final_checkpoint_is_now (fetches : Nat → FetchOutcome)
    (limit max_records : Nat) (st : SyncState) (now : String)
    (h : max_records ≤ st.total_processed) :
    update fetches limit max_records st now =
      ⟨[⟨now, st.total_processed, 0⟩], false⟩ := by
  simp only [update]
  rw [runLoop_stop (by omega)]
  simp [finalCursor]

/-- C1 (amended): the checkpointed `last_sync_date` sequence is
non-decreasing under string comparison *provided* the per-page extracted
cursors are non-decreasing in page order and the wall-clock fallback is at
least every extracted cursor; without those provisos a later page with
earlier dates regresses the cursor (see the counterexample). -/
theorem C1_lastSyncDate_chain_of_monotone_pages (fetches : Nat → FetchOutcome)
    (limit max_records : Nat) (st : SyncState) (now : String)
    (Hmono : ∀ i j ri rj, i ≤ j → fetches i = FetchOutcome.page ri →
      fetches j = FetchOutcome.page rj → ¬ ri.isEmpty → ¬ rj.isEmpty →
      get_latest_report_date ri now ≤ get_latest_report_date rj now)
    (Hnow : ∀ i ri, fetches i = FetchOutcome.page ri → ¬ ri.isEmpty →
      get_latest_report_date ri now ≤ now) :
    List.Chain' (· ≤ ·)
      ((update fetches limit max_records st now).checkpoints.map
        Checkpoint.last_sync_date) := by
  obtain ⟨hchain, hlast⟩ :=
    runLoop_cursor_chain fetches (min limit 1000) max_records now Hmono Hnow
      0 0 st.total_processed none [] ⟨by simp, by simp⟩
  by_cases herr : (runLoop fetches (min limit 1000) max_records now 0 0
      st.total_processed none []).errored
  · rw [update_errored_eq herr]
    exact hchain
  · simp only [Bool.not_eq_true] at herr
    rw [update_ok_eq herr]
    rw [List.map_append]
    refine List.Chain'.append hchain (List.chain'_singleton _) ?_
    intro x hx y hy
    simp only [List.map_cons, List.map_nil, List.head?_cons,
      Option.mem_def, Option.some.injEq] at hy
    subst hy
    exact hlast x hx

/-- Witness for C1 at a fetch oracle with two nonempty full pages whose
extracted cursors genuinely increase (`2024-01-01` then `2024-03-15`,
both below the wall-clock fallback), followed by an empty page: the run
writes two per-page checkpoints and the final one, and both hypotheses
are exercised non-vacuously. -/
theorem C1_witness :
    List.Chain' (· ≤ ·)
      ((update (fun n => if n = 0 then FetchOutcome.page [⟨some "20240101"⟩]
          else if n = 1 then FetchOutcome.page [⟨some "20240315"⟩]
          else FetchOutcome.page []) 1 10 ⟨none, 0⟩
        "2025-06-01T12:00:00+00:00").checkpoints.map
        Checkpoint.last_sync_date) :=
  C1_lastSyncDate_chain_of_monotone_pages
    (fun n => if n = 0 then FetchOutcome.page [⟨some "20240101"⟩]
      else if n = 1 then FetchOutcome.page [⟨some "20240315"⟩]
      else FetchOutcome.page []) 1 10 ⟨none, 0⟩ "2025-06-01T12:00:00+00:00"
    (by
      intro i j ri rj hij hfi hfj hnei hnej
      beta_reduce at hfi hfj
      by_cases hi2 : 2 ≤ i
      · rw [if_neg (by omega), if_neg (by omega)] at hfi
        cases hfi
        simp at hnei
      · by_cases hj2 : 2 ≤ j
        · rw [if_neg (by omega), if_neg (by omega)] at hfj
          cases hfj
          simp at hnej
        · rcases i with _ | _ | i
          · rcases j with _ | _ | j
            · simp only [reduceIte] at hfi hfj
              cases hfi
              cases hfj
              exact le_rfl
            · simp only [reduceIte] at hfi hfj
              cases hfi
              cases hfj
              rw [String.le_iff_toList_le]
              decide
            · exact absurd (by omega) hj2
          · rcases j with _ | _ | j
            · exact absurd hij (by omega)
            · simp only [reduceIte] at hfi hfj
              cases hfi
              cases hfj
              exact le_rfl
            · exact absurd (by omega) hj2
          · exact absurd (by omega) hi2)
    (by
      intro i ri hfi hnei
      beta_reduce at hfi
      by_cases hi2 : 2 ≤ i
      · rw [if_neg (by omega), if_neg (by omega)] at hfi
        cases hfi
        simp at hnei
      · rcases i with _ | _ | i
        · simp only [reduceIte] at hfi
          cases hfi
          rw [String.le_iff_toList_le]
          decide
        · simp only [reduceIte] at hfi
          cases hfi
          rw [String.le_iff_toList_le]
          decide
        · exact absurd (by omega) hi2)

/-- The fetch oracle of the C1 counterexample: a full page with date
`20240315`, then a full page with the earlier date `20240101`. -/
def c1Fetches : Nat → FetchOutcome := fun n =>
  if n = 0 then FetchOutcome.page [⟨some "20240315"⟩]
  else if n = 1 then FetchOutcome.page [⟨some "20240101"⟩]
  else FetchOutcome.page []

/-- C1 is false as stated: with page size 1 and `max_records = 2`, a run
whose second page carries an earlier date writes the checkpoint cursor
sequence `2024-03-15, 2024-01-01, 2024-01-01` — not non-decreasing. -/
theorem C1_counterexample :
    ¬ List.Chain' (· ≤ ·)
      ((update c1Fetches 1 2 ⟨none, 0⟩ "X").checkpoints.map
        Checkpoint.last_sync_date) := by
  have h : (update c1Fetches 1 2 ⟨none, 0⟩ "X").checkpoints.map
      Checkpoint.last_sync_date =
      ["2024-03-15T00:00:00Z", "2024-01-01T00:00:00Z",
       "2024-01-01T00:00:00Z"] := by
    simp [update, runLoop, c1Fetches, get_latest_report_date, latestStep,
      normalizeDate, finalCursor]
    decide
  rw [h]
  intro hchain
  rw [List.chain'_cons] at hchain
  have hlt : ("2024-01-01T00:00:00Z" : String) < "2024-03-15T00:00:00Z" := by
    rw [String.lt_iff_toList_lt]
    decide
  exact absurd hchain.1 (not_le.2 hlt)

/-- C4 (amended): the state is overwritten after every successfully
processed *full* page and once more at sync end; a final page strictly
smaller than the page size is processed but does not get a per-page
checkpoint, so a run that processes `n = ps.length + 1` pages whose last
page is short performs `n - 1 = ps.length` per-page writes plus one final
write. -/
theorem C4_checkpoint_count (ps : List (List Record)) (q : List Record)
    (fetches : Nat → FetchOutcome) (limit max_records : Nat) (st : SyncState)
    (now : String)
    (hk : ∀ k (hk : k < ps.length),
      fetches k = FetchOutcome.page (ps.get ⟨k, hk⟩))
    (hfull : ∀ p ∈ ps, p.length = min limit 1000)
    (hq : fetches ps.length = FetchOutcome.page q)
    (hne : ¬ q.isEmpty) (hshort : q.length < min limit 1000)
    (hcap : st.total_processed + ps.length * min limit 1000 < max_records) :
    (update fetches limit max_records st now).checkpoints.length =
      ps.length + 1 ∧
    (update fetches limit max_records st now).errored = false ∧
    (update fetches limit max_records st now).checkpoints.map
        Checkpoint.total_processed ≠ [] := by
  obtain ⟨h1, h2, h3, h4⟩ :=
    runLoop_fullPages fetches (min limit 1000) max_records now ps 0 0
      st.total_processed none [] q
      (fun k hk' => by simpa using hk k hk') hfull (by simpa using hq)
      hne hshort hcap
  rw [update_ok_eq h2]
  refine ⟨?_, rfl, by simp⟩
  simp [h1]

/-- Witness for C4: one full page of two records followed by a short page
of one record — two pages processed, one per-page checkpoint plus the
final checkpoint. -/
theorem C4_witness :
    (update (fun n => if n = 0
        then FetchOutcome.page [⟨some "20240101"⟩, ⟨some "20240102"⟩]
        else FetchOutcome.page [⟨some "20240103"⟩]) 2 100 ⟨none, 0⟩
      "X").checkpoints.length = 1 + 1 ∧
    (update (fun n => if n = 0
        then FetchOutcome.page [⟨some "20240101"⟩, ⟨some "20240102"⟩]
        else FetchOutcome.page [⟨some "20240103"⟩]) 2 100 ⟨none, 0⟩
      "X").errored = false ∧
    (update (fun n => if n = 0
        then FetchOutcome.page [⟨some "20240101"⟩, ⟨some "20240102"⟩]
        else FetchOutcome.page [⟨some "20240103"⟩]) 2 100 ⟨none, 0⟩
      "X").checkpoints.map Checkpoint.total_processed ≠ [] := by
  have h := C4_checkpoint_count [[⟨some "20240101"⟩, ⟨some "20240102"⟩]]
    [⟨some "20240103"⟩]
    (fun n => if n = 0
      then FetchOutcome.page [⟨some "20240101"⟩, ⟨some "20240102"⟩]
      else FetchOutcome.page [⟨some "20240103"⟩]) 2 100 ⟨none, 0⟩ "X"
    (fun k hk' => by
      simp only [List.length_singleton] at hk'
      obtain rfl : k = 0 := by omega
      rfl)
    (by
      intro p hp
      rw [List.mem_singleton] at hp
      subst hp
      rfl)
    rfl (by simp) (by norm_num) (by norm_num)
  simpa using h

/-- C4 is false as stated: a run processing a single page strictly smaller
than the page size (one record, page size 2) writes exactly one checkpoint
(the final one), not `1 + 1 = 2`; the page was processed, as its
checkpointed running total of 1 shows. -/
theorem C4_counterexample :
    (update (fun _ => FetchOutcome.page [⟨some "20240101"⟩]) 2 100 ⟨none, 0⟩
      "X").checkpoints.length = 1 ∧
    (update (fun _ => FetchOutcome.page [⟨some "20240101"⟩]) 2 100 ⟨none, 0⟩
      "X").checkpoints.map Checkpoint.total_processed = [1] := by
  constructor
  · simp [update, runLoop, finalCursor, get_latest_report_date, latestStep]
  · simp [update, runLoop, finalCursor, get_latest_report_date, latestStep]

/-- Witness for C3 at a concrete saturated state, with a fetch oracle that
would error if it were ever consulted. -/
theorem C3_witness :
    update (fun _ => FetchOutcome.exn) 1000 5 ⟨some "2020-01-01T00:00:00Z", 7⟩
      "2025-06-01T12:00:00+00:00" =
      ⟨[⟨"2025-06-01T12:00:00+00:00", 7, 0⟩], false⟩ :=
  C3_cap_reached_final_checkpoint_is_now (fun _ => FetchOutcome.exn) 1000 5
    ⟨some "2020-01-01T00:00:00Z", 7⟩ "2025-06-01T12:00:00+00:00"
    (by norm_num)

/-- C3 is false as stated: starting saturated (`total_processed = 5 ≥
max_records = 5`) from a state that *has* a cursor, the final checkpoint's
`last_sync_date` is the wall-clock time, not the input cursor. -/
theorem C3_counterexample :
    update (fun _ => FetchOutcome.exn) 1000 5 ⟨some "2020-01-01T00:00:00Z", 5⟩
      "2025-06-01T12:00:00+00:00" =
      ⟨[⟨"2025-06-01T12:00:00+00:00", 5, 0⟩], false⟩ ∧
    ("2025-06-01T12:00:00+00:00" : String) ≠ "2020-01-01T00:00:00Z" := by
  constructor
  · simp [update, runLoop, finalCursor]
  · decide

/-- C2 (amended): the cursor extractor skips entries of the wrong length
but *not* non-numeric 8-character entries (see the counterexample); every
nonempty 8-character raw field is converted through the
`YYYY-MM-DDT00:00:00Z` slicing template, the lexicographically maximum
converted string is returned, and with no such entries the wall-clock
fallback is returned. -/
theorem C2_latest_is_max_of_validDates_or_now (records : List Record)
    (now : String) :
    (validDates records = [] → get_latest_report_date records now = now) ∧
    (validDates records ≠ [] →
      get_latest_report_date records now ∈ validDates records ∧
      ∀ x ∈ validDates records, x ≤ get_latest_report_date records now) := by
  have h := foldl_latestStep_spec records none
  constructor
  · intro hvd
    cases hfold : records.foldl latestStep none with
    | none => simp [get_latest_report_date, hfold]
    | some m =>
      obtain ⟨hmem, _, _⟩ := h.2 m hfold
      rcases hmem with hmem | hmem
      · rw [hvd] at hmem
        simp at hmem
      · simp at hmem
  · intro hvd
    cases hfold : records.foldl latestStep none with
    | none => exact absurd (h.1 hfold).2 hvd
    | some m =>
      obtain ⟨hmem, hbound, _⟩ := h.2 m hfold
      have hg : get_latest_report_date records now = m := by
        simp [get_latest_report_date, hfold]
      rw [hg]
      rcases hmem with hmem | hmem
      · exact ⟨hmem, hbound⟩
      · simp at hmem

/-- Witness for C2: one batch with both a valid and a wrong-length entry,
and one batch with no valid entries. -/
theorem C2_witness :
    (validDates [⟨some "20240101"⟩, ⟨some "2024"⟩] ≠ [] →
      get_latest_report_date [⟨some "20240101"⟩, ⟨some "2024"⟩] "NOW" ∈
        validDates [⟨some "20240101"⟩, ⟨some "2024"⟩] ∧
      ∀ x ∈ validDates [⟨some "20240101"⟩, ⟨some "2024"⟩],
        x ≤ get_latest_report_date [⟨some "20240101"⟩, ⟨some "2024"⟩] "NOW") ∧
    (validDates [⟨some "2024"⟩] = [] →
      get_latest_report_date [⟨some "2024"⟩] "NOW" = "NOW") :=
  ⟨(C2_latest_is_max_of_validDates_or_now
      [⟨some "20240101"⟩, ⟨some "2024"⟩] "NOW").2,
   (C2_latest_is_max_of_validDates_or_now [⟨some "2024"⟩] "NOW").1⟩

/-- C2 is false as stated: the non-numeric 8-character raw field
`"abcdefgh"` is *not* skipped — the extractor pushes it through the
slicing template and returns `"abcd-ef-ghT00:00:00Z"` instead of the
wall-clock fallback demanded by the claim for a batch with no valid
dates. -/
theorem C2_counterexample :
    get_latest_report_date [⟨some "abcdefgh"⟩] "2025-06-01T12:00:00+00:00" =
      "abcd-ef-ghT00:00:00Z" ∧
    ("abcd-ef-ghT00:00:00Z" : String) ≠ "2025-06-01T12:00:00+00:00" := by
  constructor
  · rfl
  · decide

/-- C8: flattening is idempotent on input whose flattened result contains
no nested (mapping or sequence) values: flattening the flat result again
returns it unchanged. -/
theorem C8_flatten_idempotent_on_flat (d : List (String × JsonVal))
    (h : ∀ kv ∈ flatten_dict d "" "_", isFlatVal kv.2) :
    flatten_dict (flatten_dict d "" "_") "" "_" = flatten_dict d "" "_" := by
  conv_lhs => rw [flatten_dict]
  rw [flattenItems_of_flat "_" (flatten_dict d "" "_") h]
  refine dictOf_of_nodupKeys ?_
  rw [flatten_dict]
  exact dictOf_keys_nodup _

/-- Witness for C8 at a record with a nested mapping and a sequence. -/
theorem C8_witness :
    (∀ kv ∈ flatten_dict [("a", JsonVal.obj [("b", JsonVal.num 1)]),
        ("xs", JsonVal.arr [JsonVal.num 1])] "" "_", isFlatVal kv.2) ∧
    flatten_dict (flatten_dict [("a", JsonVal.obj [("b", JsonVal.num 1)]),
        ("xs", JsonVal.arr [JsonVal.num 1])] "" "_") "" "_" =
      flatten_dict [("a", JsonVal.obj [("b", JsonVal.num 1)]),
        ("xs", JsonVal.arr [JsonVal.num 1])] "" "_" := by
  have hflat : flatten_dict [("a", JsonVal.obj [("b", JsonVal.num 1)]),
      ("xs", JsonVal.arr [JsonVal.num 1])] "" "_" =
      [("a_b", JsonVal.num 1),
       ("xs", JsonVal.str (json_dumps (JsonVal.arr [JsonVal.num 1])))] := by
    simp [flatten_dict, flattenItems, dictOf, dictInsert, joinKey]
  have h : ∀ kv ∈ flatten_dict [("a", JsonVal.obj [("b", JsonVal.num 1)]),
      ("xs", JsonVal.arr [JsonVal.num 1])] "" "_", isFlatVal kv.2 := by
    intro kv hkv
    rw [hflat] at hkv
    rcases List.mem_cons.1 hkv with rfl | hkv
    · rfl
    · rcases List.mem_singleton.1 hkv with rfl
      rfl
  exact ⟨h, C8_flatten_idempotent_on_flat _ h⟩

/-- C9 (amended): provided the flattened key paths are pairwise distinct,
`flatten_dict` recurses into nested mapping values joining the key path
with `_` (with `{"a": {"b": 1}}` yielding `a_b ↦ 1`), stores each nonempty
sequence serialized by `json.dumps` under its key, maps each empty sequence
to null, and passes scalars through unchanged; when two flattened paths
collide, the later entry overwrites the earlier (see the counterexample). -/
theorem C9_flatten_rules (d : List (String × JsonVal))
    (h : (keysOf (flattenItems d "" "_")).Nodup) :
    (∀ k sub, (k, JsonVal.obj sub) ∈ d →
      ∀ x ∈ flatten_dict sub k "_", x ∈ flatten_dict d "" "_") ∧
    (∀ k elems, (k, JsonVal.arr elems) ∈ d → elems ≠ [] →
      (k, JsonVal.str (json_dumps (JsonVal.arr elems))) ∈
        flatten_dict d "" "_") ∧
    (∀ k, (k, JsonVal.arr []) ∈ d → (k, JsonVal.null) ∈
      flatten_dict d "" "_") ∧
    (∀ k v, (k, v) ∈ d → isFlatVal v → (k, v) ∈ flatten_dict d "" "_") ∧
    flatten_dict [("a", JsonVal.obj [("b", JsonVal.num 1)])] "" "_" =
      [("a_b", JsonVal.num 1)] := by
  rw [flatten_dict_eq_items_of_nodup h]
  refine ⟨?_, ?_, ?_, ?_, ?_⟩
  · intro k sub hmem x hx
    refine mem_flattenItems_of_mem d "" "_" k (JsonVal.obj sub) hmem x ?_
    simpa [flattenEntry, joinKey] using hx
  · intro k elems hmem hne
    refine mem_flattenItems_of_mem d "" "_" k (JsonVal.arr elems) hmem _ ?_
    simp [flattenEntry, joinKey, hne]
  · intro k hmem
    refine mem_flattenItems_of_mem d "" "_" k (JsonVal.arr []) hmem _ ?_
    simp [flattenEntry, joinKey]
  · intro k v hmem hflat
    refine mem_flattenItems_of_mem d "" "_" k v hmem _ ?_
    cases v with
    | null => simp [flattenEntry, joinKey]
    | bool b => simp [flattenEntry, joinKey]
    | num n => simp [flattenEntry, joinKey]
    | str s => simp [flattenEntry, joinKey]
    | arr elems => simp [isFlatVal] at hflat
    | obj fields => simp [isFlatVal] at hflat
  · simp [flatten_dict, flattenItems, dictOf, dictInsert, joinKey]

/-- Witness for C9 at a record with a nested mapping, a nonempty sequence,
an empty sequence and a scalar. -/
theorem C9_witness :
    (∀ k sub, (k, JsonVal.obj sub) ∈
        [("a", JsonVal.obj [("b", JsonVal.num 1)]),
         ("xs", JsonVal.arr [JsonVal.num 1]), ("e", JsonVal.arr []),
         ("s", JsonVal.str "v")] →
      ∀ x ∈ flatten_dict sub k "_",
        x ∈ flatten_dict [("a", JsonVal.obj [("b", JsonVal.num 1)]),
          ("xs", JsonVal.arr [JsonVal.num 1]), ("e", JsonVal.arr []),
          ("s", JsonVal.str "v")] "" "_") ∧
    (∀ k elems, (k, JsonVal.arr elems) ∈
        [("a", JsonVal.obj [("b", JsonVal.num 1)]),
         ("xs", JsonVal.arr [JsonVal.num 1]), ("e", JsonVal.arr []),
         ("s", JsonVal.str "v")] → elems ≠ [] →
      (k, JsonVal.str (json_dumps (JsonVal.arr elems))) ∈
        flatten_dict [("a", JsonVal.obj [("b", JsonVal.num 1)]),
          ("xs", JsonVal.arr [JsonVal.num 1]), ("e", JsonVal.arr []),
          ("s", JsonVal.str "v")] "" "_") ∧
    (∀ k, (k, JsonVal.arr []) ∈
        [("a", JsonVal.obj [("b", JsonVal.num 1)]),
         ("xs", JsonVal.arr [JsonVal.num 1]), ("e", JsonVal.arr []),
         ("s", JsonVal.str "v")] →
      (k, JsonVal.null) ∈
        flatten_dict [("a", JsonVal.obj [("b", JsonVal.num 1)]),
          ("xs", JsonVal.arr [JsonVal.num 1]), ("e", JsonVal.arr []),
          ("s", JsonVal.str "v")] "" "_") ∧
    (∀ k v, (k, v) ∈
        [("a", JsonVal.obj [("b", JsonVal.num 1)]),
         ("xs", JsonVal.arr [JsonVal.num 1]), ("e", JsonVal.arr []),
         ("s", JsonVal.str "v")] → isFlatVal v →
      (k, v) ∈
        flatten_dict [("a", JsonVal.obj [("b", JsonVal.num 1)]),
          ("xs", JsonVal.arr [JsonVal.num 1]), ("e", JsonVal.arr []),
          ("s", JsonVal.str "v")] "" "_") ∧
    flatten_dict [("a", JsonVal.obj [("b", JsonVal.num 1)])] "" "_" =
      [("a_b", JsonVal.num 1)] :=
  C9_flatten_rules
    [("a", JsonVal.obj [("b", JsonVal.num 1)]),
     ("xs", JsonVal.arr [JsonVal.num 1]), ("e", JsonVal.arr []),
     ("s", JsonVal.str "v")]
    (by
      have hitems : flattenItems
          [("a", JsonVal.obj [("b", JsonVal.num 1)]),
           ("xs", JsonVal.arr [JsonVal.num 1]), ("e", JsonVal.arr []),
           ("s", JsonVal.str "v")] "" "_" =
          [("a_b", JsonVal.num 1),
           ("xs", JsonVal.str (json_dumps (JsonVal.arr [JsonVal.num 1]))),
           ("e", JsonVal.null), ("s", JsonVal.str "v")] := by
        simp [flattenItems, flatten_dict, dictOf, dictInsert, joinKey]
      rw [hitems]
      simp [keysOf])

/-- C9 is false as stated: when a nested path collides with a literal key,
the later entry overwrites the serialized sequence — flattening
`{"a_b": [2], "a": {"b": 1}}` stores `1`, not the JSON string `"[2]"`,
under `a_b`, so not every nonempty sequence value ends up stored under its
key. -/
theorem C9_counterexample :
    flatten_dict [("a_b", JsonVal.arr [JsonVal.num 2]),
      ("a", JsonVal.obj [("b", JsonVal.num 1)])] "" "_" =
      [("a_b", JsonVal.num 1)] ∧
    JsonVal.num 1 ≠ JsonVal.str (json_dumps (JsonVal.arr [JsonVal.num 2])) := by
  constructor
  · simp [flatten_dict, flattenItems, dictOf, dictInsert, joinKey]
  · intro hcontra
    cases hcontra
